import Mathlib

/-!
Verification development for the cross-system therapy-visit reconciliation
scripts (Site A patient/task manager vs. Site B scheduling system).

Modelling conventions for the shallow embedding of the TypeScript source:

* JavaScript strings are modelled as Lean `String` / `List Char`; string
  combinators (`replace(/\s+/g, ' ')`, `trim`, `toLowerCase`, `includes`,
  `startsWith`, `split`, `padStart`) are re-implemented below on `List Char`,
  following ECMAScript semantics.
* The ECMAScript `\s` character class is modelled by `jsWs` via the exact
  set of code points it matches (WhiteSpace plus LineTerminator).
* `toLowerCase` / `toUpperCase` are modelled by `Char.toLower` /
  `Char.toUpper` (basic-latin case mapping); the inputs handled by these
  scripts (task names, statuses, dates, therapist names) are ASCII apart
  from non-breaking spaces, which are caseless, so this agrees with the
  ECMAScript behaviour on the data domain.
* `parseInt` / `Number` are modelled for the digit-string inputs the
  scripts feed them (date components, time components): the models return
  `Option Nat` with `none` playing the role of `NaN`, and stringification
  of `none` produces `"NaN"` exactly as in JavaScript.
* DOM reads (Playwright locators) are modelled as record fields: a locator
  whose `count()` is checked before reading becomes an `Option String`
  field (`none` = element absent), an attribute read with `?? ''` becomes
  an `Option String` consumed with a `""` default.  Page navigation and
  the values read after navigating away (detail-page times, PDF bytes) are
  outside the pure fragment and are not modelled.
-/

/-! ## ECMAScript string primitives on `List Char` -/

/-- Code points matched by the ECMAScript `\s` class (WhiteSpace and
LineTerminator: TAB LF VT FF CR SP NBSP OGHAM EN-QUAD..HAIR-SPACE LS PS
NNBSP MMSP IDEOGRAPHIC-SPACE BOM). -/
def jsWsCode (n : Nat) : Bool :=
  n == 9 || n == 10 || n == 11 || n == 12 || n == 13 || n == 32 ||
  n == 160 || n == 5760 || n == 8192 || n == 8193 || n == 8194 ||
  n == 8195 || n == 8196 || n == 8197 || n == 8198 || n == 8199 ||
  n == 8200 || n == 8201 || n == 8202 || n == 8232 || n == 8233 ||
  n == 8239 || n == 8287 || n == 12288 || n == 65279

/-- ECMAScript `\s` test on a character. -/
def jsWs (c : Char) : Bool := jsWsCode c.toNat

/-- `replace(/\s+/g, ' ')`: every maximal run of `\s` characters becomes a
single space.  `prevWs` records whether the previously scanned character
belonged to a whitespace run whose replacement space was already emitted. -/
def collapseWsAux (prevWs : Bool) : List Char → List Char
  | [] => []
  | c :: rest =>
    if jsWs c then
      if prevWs then collapseWsAux true rest
      else ' ' :: collapseWsAux true rest
    else c :: collapseWsAux false rest

/-- `replace(/\s+/g, ' ')` on a character list. -/
def collapseWs (l : List Char) : List Char := collapseWsAux false l

/-- `replace(/ /g, ' ')`. -/
def replaceNbsp (l : List Char) : List Char :=
  l.map (fun c => if c.toNat = 160 then ' ' else c)

/-- `trimStart()`-like left trim with the `\s` class. -/
def ltrim (l : List Char) : List Char := l.dropWhile jsWs

/-- right trim with the `\s` class. -/
def rtrim (l : List Char) : List Char := (l.reverse.dropWhile jsWs).reverse

/-- ECMAScript `trim()` (the JS trim set coincides with `\s`). -/
def jsTrim (l : List Char) : List Char := rtrim (ltrim l)

/-- ASCII `toLowerCase()` on a character list. -/
def jsLower (l : List Char) : List Char := l.map Char.toLower

/-- ASCII `toUpperCase()` on a character list. -/
def jsUpper (l : List Char) : List Char := l.map Char.toUpper

/-- `String.prototype.includes`: `needle` occurs contiguously in `hay`. -/
def containsSub : List Char → List Char → Bool
  | [], needle => needle.isEmpty
  | hay@(_ :: t), needle => needle.isPrefixOf hay || containsSub t needle

/-- `String.prototype.split(sep)` for a one-character separator: always
returns a non-empty list of (possibly empty) chunks. -/
def splitChar (sep : Char) : List Char → List (List Char)
  | [] => [[]]
  | c :: rest =>
    match splitChar sep rest with
    | [] => [[c]]
    | h :: t => if c = sep then [] :: h :: t else (c :: h) :: t

/-- String-level wrappers used at the source-function boundaries. -/
def strLower (s : String) : String := (jsLower s.toList).asString

def strUpper (s : String) : String := (jsUpper s.toList).asString

def strTrim (s : String) : String := (jsTrim s.toList).asString

def strContains (s sub : String) : Bool := containsSub s.toList sub.toList

def strStartsWith (s pre : String) : Bool := pre.toList.isPrefixOf s.toList

/-- Value of a non-empty all-digit character run (what `parseInt` and
`Number` compute on the digit strings these scripts produce). -/
def digitsToNat (l : List Char) : Nat :=
  l.foldl (fun n c => n * 10 + (c.toNat - 48)) 0

/-- `parseInt(s)` restricted to the shapes fed by these scripts: leading
`\s` skipped, then a maximal digit run; no digits means `NaN` (`none`).
(Signs, radix prefixes and fractions never occur in the inputs.) -/
def jsParseInt (l : List Char) : Option Nat :=
  let t := l.dropWhile jsWs
  let ds := t.takeWhile Char.isDigit
  if ds.isEmpty then none else some (digitsToNat ds)

/-- `Number(s)` restricted to the shapes fed by these scripts: both ends
trimmed, empty means `0`, an all-digit run means its value, anything else
`NaN` (`none`). -/
def jsNumber (l : List Char) : Option Nat :=
  let t := jsTrim l
  if t.isEmpty then some 0
  else if t.all Char.isDigit then some (digitsToNat t)
  else none

/-- Template interpolation of a JS number: `NaN` prints as `"NaN"`. -/
def numToString : Option Nat → String
  | some n => toString n
  | none => "NaN"

/-- `padStart(2, '0')`. -/
def padStart2 (s : String) : String :=
  if s.length ≥ 2 then s
  else if s.length = 1 then "0" ++ s
  else "00"

/-- Fuelled scanner for the maximal `\s`-separated words of a character
list; the fuel only bounds the recursion depth and is irrelevant as long
as it is at least the list length. -/
def wordsOfFuel : Nat → List Char → List (List Char)
  | 0, _ => []
  | _ + 1, [] => []
  | fuel + 1, c :: rest =>
    if jsWs c then wordsOfFuel fuel rest
    else (c :: rest.takeWhile (fun x => !jsWs x)) ::
      wordsOfFuel fuel (rest.dropWhile (fun x => !jsWs x))

/-- Maximal `\s`-separated words of a character list (the result of
`split(/\s+/).filter(Boolean)`). -/
def wordsOf (l : List Char) : List (List Char) := wordsOfFuel l.length l

/-- Words joined by single spaces (tail part). -/
def joinWordsTail : List (List Char) → List Char
  | [] => []
  | w :: ws => ' ' :: (w ++ joinWordsTail ws)

/-- Words joined by single spaces. -/
def joinWords : List (List Char) → List Char
  | [] => []
  | w :: ws => w ++ joinWordsTail ws

example : collapseWs "  a  b  ".toList = " a b ".toList := by decide
example : jsTrim "  ab  ".toList = "ab".toList := by decide
example : wordsOf "  PTA  Visit ".toList = ["PTA".toList, "Visit".toList] := by decide
example : splitChar '/' "2/3/2026".toList = ["2".toList, "3".toList, "2026".toList] := by decide
example : containsSub "associate".toList "soc".toList = true := by decide

/-! ## Site B actions (`siteB.actions.ts`) -/

namespace SiteB

/-- `siteB.actions.ts` line 14: `s.replace(/\s+/g, ' ').replace(/\xA0/g,
' ').trim().toLowerCase()`. -/
def normalize (s : String) : String :=
  (jsLower (jsTrim (replaceNbsp (collapseWs s.toList)))).asString

/-- `normalizeDateToISO` (lines 17-23): `"2/17/2026"` or `"02/17/2026"` →
`"2026-02-17"`; anything that does not split into exactly three `/`-parts
passes through unchanged.  The three parts go through `Number` and the
month/day renderings are `padStart(2, '0')`-ed. -/
def normalizeDateToISO (date : String) : String :=
  match splitChar '/' date.toList with
  | [m, d, y] =>
      numToString (jsNumber y) ++ "-" ++
      padStart2 (numToString (jsNumber m)) ++ "-" ++
      padStart2 (numToString (jsNumber d))
  | _ => date

/-- `normalizeVisitKey` (lines 30-32): the dedup key
`normalize(taskName) + "|" + normalizeDateToISO(visitDate)`. -/
def normalizeVisitKey (taskName visitDate : String) : String :=
  normalize taskName ++ "|" ++ normalizeDateToISO visitDate

/-- `normalizeDate` (lines 34-40): strips leading zeros from month/day
(`parseInt` then template), keeps the year part verbatim; non-3-part input
passes through unchanged. -/
def normalizeDate (dateStr : String) : String :=
  match splitChar '/' dateStr.toList with
  | [m, d, y] =>
      numToString (jsParseInt m) ++ "/" ++ numToString (jsParseInt d) ++ "/" ++ y.asString
  | _ => dateStr

/-! ### `convertTo24h` (lines 42-51)

The regex `/(\d+)(?::(\d+))?\s*(AM|PM)/i` is unanchored; `String.match`
finds the leftmost position where it matches.  For this particular regex
greedy maximal munch at each position is equivalent to full backtracking
(shortening any of the greedy runs can never turn a failure into a
success), so the matcher below scans positions left to right and at each
position takes the maximal digit run, an optional `:` + maximal digit run,
a maximal `\s` run, and then two `AM`/`PM` letters. -/

/-- Attempt the time regex anchored at the head of `l`; returns
(hour digits, optional minute digits, the two matched am/pm letters). -/
def matchTimeAt (l : List Char) : Option (List Char × Option (List Char) × List Char) :=
  let h := l.takeWhile Char.isDigit
  if h.isEmpty then none
  else
    let r1 := l.dropWhile Char.isDigit
    let step2 : Option (List Char) × List Char :=
      match r1 with
      | ':' :: r =>
          let m := r.takeWhile Char.isDigit
          if m.isEmpty then (none, r1) else (some m, r.dropWhile Char.isDigit)
      | _ => (none, r1)
    let r3 := step2.2.dropWhile jsWs
    match r3 with
    | a :: m :: _ =>
        if (a.toLower = 'a' || a.toLower = 'p') && m.toLower = 'm'
        then some (h, step2.1, [a, m])
        else none
    | _ => none

/-- Leftmost match of the time regex anywhere in the string. -/
def searchTime : List Char → Option (List Char × Option (List Char) × List Char)
  | [] => none
  | l@(_ :: rest) =>
    match matchTimeAt l with
    | some r => some r
    | none => searchTime rest

/-- `convertTo24h` (lines 42-51): no match → `"00:00"`; otherwise
`parseInt` hour and minutes, add 12 for PM hours below 12, zero 12 AM, and
render both fields `padStart(2, '0')`-ed. -/
def convertTo24h (time : String) : String :=
  match searchTime time.toList with
  | none => "00:00"
  | some (hs, ms, ampm) =>
      let hour := digitsToNat hs
      let min := match ms with | some m => digitsToNat m | none => 0
      let up := jsUpper ampm
      let hour := if up = ['P', 'M'] ∧ hour < 12 then hour + 12 else hour
      let hour := if up = ['A', 'M'] ∧ hour = 12 then 0 else hour
      padStart2 (toString hour) ++ ":" ++ padStart2 (toString min)

example : convertTo24h "1PM" = "13:00" := by decide
example : convertTo24h "12:00 AM" = "00:00" := by decide
example : convertTo24h "12:30 PM" = "12:30" := by decide
example : convertTo24h "garbage" = "00:00" := by decide
example : convertTo24h "around 2:30 pm today" = "14:30" := by decide

/-! ### Visit type mapping (lines 129-167) -/

/-- `VisitTypeMapping`: Site B `visititem-type` text plus the
`data-discipline` attribute to require (`none` = any). -/
structure VisitTypeMapping where
  siteBType : String
  discipline : Option String
deriving DecidableEq, Repr

/-- `SITE_A_TO_SITE_B` (lines 134-162), keyed by normalized Site A task
name. -/
def SITE_A_TO_SITE_B : List (String × VisitTypeMapping) := [
  ("pt visit",         ⟨"standard", some "pt"⟩),
  ("pta visit",        ⟨"standard", some "pt"⟩),
  ("ot visit",         ⟨"standard", some "ot"⟩),
  ("cota visit",       ⟨"standard", some "ot"⟩),
  ("st visit",         ⟨"standard", some "st"⟩),
  ("standard",         ⟨"standard", none⟩),
  ("pt evaluation",    ⟨"initial eval", some "pt"⟩),
  ("ot evaluation",    ⟨"initial eval", some "ot"⟩),
  ("st evaluation",    ⟨"initial eval", some "st"⟩),
  ("initial eval",     ⟨"initial eval", none⟩),
  ("evaluation",       ⟨"initial eval", none⟩),
  ("pt re-evaluation", ⟨"reassessment", some "pt"⟩),
  ("ot re-evaluation", ⟨"reassessment", some "ot"⟩),
  ("re-evaluation",    ⟨"reassessment", none⟩),
  ("reassessment",     ⟨"reassessment", none⟩),
  ("discharge",        ⟨"dc oasis", none⟩),
  ("dc oasis",         ⟨"dc oasis", none⟩),
  ("recertification",  ⟨"recertification", none⟩)]

/-- `getSiteBMapping` (lines 164-167): exact lookup on the normalized
label, `null` when absent. -/
def getSiteBMapping (siteATaskName : String) : Option VisitTypeMapping :=
  (SITE_A_TO_SITE_B.lookup (normalize siteATaskName))

/-- `mapping?.siteBType ?? normalize(siteAVisitName)` (lines 210, 290). -/
def expectedTypeFor (siteAVisitName : String) : String :=
  match getSiteBMapping siteAVisitName with
  | some m => m.siteBType
  | none => normalize siteAVisitName

/-- `mapping?.discipline ?? null` (lines 211, 291). -/
def expectedDiscFor (siteAVisitName : String) : Option String :=
  match getSiteBMapping siteAVisitName with
  | some m => m.discipline
  | none => none

example : expectedTypeFor "COTA Visit" = "standard" := by decide
example : expectedDiscFor "COTA Visit" = some "ot" := by decide
example : expectedDiscFor "COTA Evaluation" = none := by decide

end SiteB

/-! ## Site A actions (`siteA.actions.ts`): visit classification predicates -/

namespace SiteA

/-- `SOC_NAMES` (lines 108-113). -/
def SOC_NAMES : List String := ["SOC", "SOC OASIS", "START OF CARE", "OASIS-E1 START"]

/-- `DISCHARGE_NAMES` (lines 115-120). -/
def DISCHARGE_NAMES : List String :=
  ["DISCHARGE", "DC OASIS", "OASIS-E1 DISCHARGE", "OASIS-E1 DC"]

/-- `isSOC` (lines 122-126): some SOC keyword occurs in the upper-cased
visit type. -/
def isSOC (visitType : String) : Bool :=
  SOC_NAMES.any (fun k => strContains (strUpper visitType) k)

/-- `isDischarge` (lines 128-132). -/
def isDischarge (visitType : String) : Bool :=
  DISCHARGE_NAMES.any (fun k => strContains (strUpper visitType) k)

/-- `isDeleted` (lines 135-137): trimmed upper-cased name starts with
`"DEL "`. -/
def isDeleted (visitType : String) : Bool :=
  strStartsWith (strUpper (strTrim visitType)) "DEL "

/-- The `Visit` interface (lines 95-104). -/
structure Visit where
  taskName : String
  therapist : String
  visitDate : String
  targetDate : String
  siteBVisitName : String
  rowIndex : Nat
  needsAction : Bool
  actualVisitType : String
deriving DecidableEq, Repr

end SiteA

/-! ## Site B schedule status resolution and visit matching -/

namespace SiteB

/-- `ScheduleResult` (line 186).  Note: the type has exactly these four
values; there is no `MISSED` value. -/
inductive ScheduleResult where
  | SCHEDULED
  | INCOMPLETE
  | VIEW_DOCUMENT
  | NOT_FOUND
deriving DecidableEq, Repr

/-- A Site B schedule card (`.record-visititem:not(.placeholder)`), as the
source reads it.  Sub-elements guarded by `count()` checks are `Option`
fields (`none` = the element is absent); `data-discipline` is an attribute
read with `?? ''`, hence `Option String` consumed with a `""` default. -/
structure VisitCard where
  typeText : Option String
  dateText : Option String
  discipline : Option String
  therapistText : String
  statusText : Option String
  timeText : Option String
deriving DecidableEq, Repr

/-- The status classification of `resolveScheduleForVisit`
(lines 250-254): substring checks on the normalized raw status, in order
scheduled / incomplete / view, with `NOT_FOUND` as the fall-through.  The
source has no `missed` branch. -/
def classifyStatus (rawStatus : String) : ScheduleResult :=
  if strContains rawStatus "scheduled" then .SCHEDULED
  else if strContains rawStatus "incomplete" then .INCOMPLETE
  else if strContains rawStatus "view" then .VIEW_DOCUMENT
  else .NOT_FOUND

/-- The card-scanning loop of `resolveScheduleForVisit` (lines 218-255):
first card whose normalized type and normalized trimmed date match (and,
when a discipline is expected, whose `data-discipline` matches) decides
the result; a matching card without a status span yields `NOT_FOUND`;
running out of cards yields `NOT_FOUND`. -/
def resolveLoop (eT : String) (eD : Option String) (eDt : String) :
    List VisitCard → ScheduleResult
  | [] => .NOT_FOUND
  | c :: rest =>
    match c.typeText with
    | none => resolveLoop eT eD eDt rest
    | some t =>
      match c.dateText with
      | none => resolveLoop eT eD eDt rest
      | some d =>
        if normalize t == eT && normalizeDate (strTrim d) == eDt then
          if (match eD with
              | some ed => !(normalize (c.discipline.getD "") == ed)
              | none => false) then resolveLoop eT eD eDt rest
          else
            match c.statusText with
            | none => .NOT_FOUND
            | some s => classifyStatus (normalize s)
        else resolveLoop eT eD eDt rest

/-- `resolveScheduleForVisit` (lines 195-259): discharge task names are
skipped outright; otherwise the Site A task name is mapped to the expected
Site B type/discipline, the date is zero-padding-normalized, and the card
list is scanned. -/
def resolveScheduleForVisit (cards : List VisitCard)
    (taskName visitDate : String) : ScheduleResult :=
  if SiteA.isDischarge taskName then .NOT_FOUND
  else
    resolveLoop (expectedTypeFor taskName) (expectedDiscFor taskName)
      (normalizeDate visitDate) cards

example : classifyStatus (normalize "Scheduled (view)") = .SCHEDULED := by decide
example : classifyStatus (normalize "Missed (Completed)") = .NOT_FOUND := by decide

/-! ### `openVisitInSchedule` (lines 276-380) -/

/-- Everything after the last `ch` in `l` (empty when `ch` is absent —
only ever called when `ch` occurs). -/
def afterLast (ch : Char) (l : List Char) : List Char :=
  (l.reverse.takeWhile (fun x => !(x == ch))).reverse

/-- Does `/\s*\(.*\)/` match starting at the head of `l`?  The `\s*` run
must be followed by `(`, and some `)` must occur afterwards (`.` never
matches a line break, but the strings these scripts feed are single
lines). -/
def parenMatchHere (l : List Char) : Bool :=
  match l.dropWhile jsWs with
  | '(' :: r => r.contains ')'
  | _ => false

/-- `replace(/\s*\(.*\)/, '')` (line 328): remove the leftmost match — a
whitespace run, an opening parenthesis, greedily through the last closing
parenthesis. -/
def stripWsParen : List Char → List Char
  | [] => []
  | l@(c :: rest) =>
    if parenMatchHere l then afterLast ')' l
    else c :: stripWsParen rest

example : (stripWsParen "j. diaz (pta)".toList).asString = "j. diaz" := by decide
example : (stripWsParen "no parens".toList).asString = "no parens" := by decide

/-- The match predicate of the `openVisitInSchedule` loop (lines 304-320):
type present and equal after normalization, date present and equal after
trim + zero-padding normalization, and — only when a discipline is
expected — the normalized `data-discipline` attribute equal. -/
def matchesTarget (eT : String) (eD : Option String) (eDt : String)
    (c : VisitCard) : Bool :=
  match c.typeText with
  | none => false
  | some t =>
    if normalize t == eT then
      match c.dateText with
      | none => false
      | some d =>
        if normalizeDate (strTrim d) == eDt then
          match eD with
          | none => true
          | some ed => normalize (c.discipline.getD "") == ed
        else false
    else false

/-- Lines 338-341: status span text captured before clicking, `''` when
the span is absent. -/
def capturedStatus (c : VisitCard) : String :=
  match c.statusText with
  | some s => normalize s
  | none => ""

/-- Lines 344-350: the matched card's `span.small-font` text indicates
that no time has been scheduled yet. -/
def hasNoSchedTime (c : VisitCard) : Bool :=
  match c.timeText with
  | some tt => strContains (normalize tt) "no scheduled"
  | none => false

/-- The therapist advisory check (lines 323-333): when a therapist hint is
supplied (and non-empty, since JS tests its truthiness), a failed partial
match on the hint's last token produces a console warning — and nothing
else. -/
def therWarnings (ther : Option String) (c : VisitCard) : List String :=
  match ther with
  | none => []
  | some th =>
    if th = "" then []
    else
      let therapistText := normalize c.therapistText
      let therapistKey := (stripWsParen (normalize th).toList).asString
      let lastTok := (splitChar ' ' therapistKey.toList).getLastD []
      if containsSub therapistText.toList lastTok then []
      else ["Therapist partial mismatch: expected \"" ++ th ++
            "\", found \"" ++ therapistText ++ "\""]

/-- The failure signals `openVisitInSchedule` can throw. -/
inductive SiteBError where
  | invalidVisit (msg : String)
  | notFoundVisit (msg : String)
  | skipNoScheduledTime (msg : String)
deriving DecidableEq, Repr

/-- Line 286. -/
def invalidMsg (name : String) : String := "Skipped invalid visit: " ++ name

/-- Line 379. -/
def notFoundMsg (name date : String) : String :=
  "Visit not found in Site B: " ++ name ++ " " ++ date

/-- Line 348. -/
def skipMsg (name date : String) : String :=
  "SKIP:no_scheduled_time — " ++ name ++ " " ++ date

/-- The successful outcome of the match: the selected card and the status
text captured from it.  (The returned `timeIn`/`timeOut` are read from the
detail page after navigation and are outside the pure fragment.) -/
structure OpenOutcome where
  card : VisitCard
  siteBStatus : String
deriving DecidableEq, Repr

/-- The candidate scan of `openVisitInSchedule` (lines 301-379): first
card satisfying `matchesTarget` wins; the optional therapist hint only
ever contributes a warning (first component); a winning card whose time
slot says "no scheduled" raises the skip signal; an exhausted list raises
the not-found signal. -/
def openLoop (name date : String) (eT : String) (eD : Option String)
    (eDt : String) (ther : Option String) :
    List VisitCard → List String × Except SiteBError OpenOutcome
  | [] => ([], .error (.notFoundVisit (notFoundMsg name date)))
  | c :: rest =>
    if matchesTarget eT eD eDt c then
      let warns := therWarnings ther c
      if hasNoSchedTime c then
        (warns, .error (.skipNoScheduledTime (skipMsg name date)))
      else
        (warns, .ok ⟨c, capturedStatus c⟩)
    else openLoop name date eT eD eDt ther rest

/-- `openVisitInSchedule` (lines 276-380): an empty date or a task name
whose lower-casing starts with `"del"` is rejected before any matching
(line 285); otherwise the expected type/discipline/date are derived and
the card list scanned. -/
def openVisitInSchedule (siteAVisitName visitDate : String)
    (therapist : Option String) (cards : List VisitCard) :
    List String × Except SiteBError OpenOutcome :=
  if visitDate == "" || strStartsWith (strLower siteAVisitName) "del" then
    ([], .error (.invalidVisit (invalidMsg siteAVisitName)))
  else
    openLoop siteAVisitName visitDate (expectedTypeFor siteAVisitName)
      (expectedDiscFor siteAVisitName) (normalizeDate visitDate) therapist cards

end SiteB

/-! ## Site A: therapist fuzzy matcher of `addMissingVisitInSiteA`
(lines 585-631) -/

namespace SiteA

/-- Does `/\(.*\)/` match starting at the head of `l`? -/
def parenHere : List Char → Bool
  | '(' :: r => r.contains ')'
  | _ => false

/-- `replace(/\(.*\)/, '')` (line 592): remove the leftmost `(`, greedily
through the last `)`. -/
def stripParen : List Char → List Char
  | [] => []
  | l@(c :: rest) =>
    if parenHere l then SiteB.afterLast ')' l
    else c :: stripParen rest

/-- One `<option>` of the `#AMUserkey1` therapist dropdown: its
`innerText` and its `value` attribute (`none` = attribute absent). -/
structure TherOption where
  text : String
  value : Option String
deriving DecidableEq, Repr

/-- The per-candidate score (lines 609-617): 2 points when the lowered
candidate text starts with `lastName + ","` or its pre-comma segment trims
to exactly `lastName`; plus 1 point when `firstName` is non-empty and
occurs anywhere in the candidate text (`text.includes(firstName)`).  When
the input had no words, `lastName` is `undefined` and JS string
concatenation turns `lastName + ','` into `"undefined,"` while
`=== undefined` is false on any string. -/
def therScore (lastName : Option (List Char)) (firstName : List Char)
    (text : List Char) : Nat :=
  (if (match lastName with
       | some ln => (ln ++ [',']).isPrefixOf text ||
                    jsTrim ((splitChar ',' text).headD []) == ln
       | none => ("undefined,".toList).isPrefixOf text)
   then 2 else 0) +
  (if !firstName.isEmpty && containsSub text firstName then 1 else 0)

/-- The scan state: `bestValue`, `bestLabel`, `bestScore`. -/
def therStep (lastName : Option (List Char)) (firstName : List Char)
    (st : Option String × String × Nat) (o : TherOption) :
    Option String × String × Nat :=
  let text := jsLower (jsTrim o.text.toList)
  if o.value = none ∨ o.value = some "" ∨ text = [] then st
  else
    let sc := therScore lastName firstName text
    if sc > st.2.2 then (o.value, strTrim o.text, sc) else st

/-- The therapist selection of `addMissingVisitInSiteA` (lines 588-631):
strip the parenthesized role, split into words, last word = surname, the
rest joined = given name; scan the options keeping the strictly best
score (ties keep the first seen); accept only with a value and a score of
at least 2.  Returns the selected `(value, label)` or `none` (the source
then returns `false`). -/
def selectTherapist (therapist : String) (options : List TherOption) :
    Option (String × String) :=
  let therapistNorm := jsTrim (stripParen (jsLower therapist.toList))
  let words := wordsOf therapistNorm
  let lastName := words.getLast?
  let firstName := List.intercalate [' '] words.dropLast
  match options.foldl (therStep lastName firstName) (none, "", 0) with
  | (some v, l, s) => if s < 2 then none else some (v, l)
  | (none, _, _) => none

example : selectTherapist "JESSICA DIAZ (PTA)"
    [⟨"Diaz, Jessica", some "11"⟩, ⟨"Diaz, Juan", some "12"⟩,
     ⟨"Santos, Jessica", some "13"⟩] = some ("11", "Diaz, Jessica") := by decide
example : selectTherapist "JESSICA DIAZ (PTA)" [⟨"Rivera, Carlos", some "9"⟩] = none := by
  decide

/-! ### `getAllIncompleteVisits` (lines 153-276) -/

/-- One row of the Site A therapy table, as the source reads it. -/
structure RowData where
  texts : List String
  iconCount : Nat
  dateDivText : String
  dateInput : Option String
  targetText : String
  therapistText : String
deriving DecidableEq, Repr

/-- Lines 168-175: `allInnerTexts().join(' ')`, non-breaking spaces
replaced, trimmed, then internal whitespace collapsed. -/
def taskNameOf (texts : List String) : String :=
  (collapseWs (jsTrim (replaceNbsp
    (List.intercalate " ".toList (texts.map String.toList))))).asString

/-- Lines 186-202: the trimmed `VisitDate` div text, falling back to the
embedded date-picker input value when the div text is empty. -/
def rowVisitDate (r : RowData) : String :=
  let d0 := strTrim r.dateDivText
  if d0 == "" then
    match r.dateInput with
    | some v => v
    | none => d0
  else d0

/-- Lines 229-256: derive the Site B visit name and the visit category
from the task name via case-insensitive substring tests.  (The
`OTA standard` branch is kept although it is shadowed by the `STANDARD`
branch, exactly as in the source.) -/
def siteBNameAndType (tn : String) : String × String :=
  let l := strLower tn
  if strContains l "soc oasis" || strContains l "oasis-e1 start of care" then
    ("SOC OASIS", "SOC")
  else if strContains l "initial eval" then ("Evaluation", "Evaluation")
  else if strContains l "standard" then ("Visit", "Standard")
  else if strContains l "reassessment" then ("Re-Evaluation", "Reassessment")
  else if strContains l "recert" then ("Recertification", "Recertification")
  else if strContains l "discharge" then ("Discharge", "Discharge")
  else if strContains l "ota standard" then ("COTA visit", "COTA")
  else (tn, "Other")

/-- The row scan of `getAllIncompleteVisits` (lines 164-272): blank, SOC,
Discharge and `Del`-prefixed task names are skipped; rows with a visit
date and an attachment icon are complete and skipped; every collected
visit has `needsAction := true`. -/
def collectRows (i : Nat) : List RowData → List Visit
  | [] => []
  | r :: rest =>
    let taskName := taskNameOf r.texts
    if taskName == "" || isSOC taskName || isDischarge taskName ||
        isDeleted taskName then
      collectRows (i + 1) rest
    else
      let visitDate := rowVisitDate r
      if !(visitDate == "") && r.iconCount > 0 then
        collectRows (i + 1) rest
      else
        { taskName := taskName,
          therapist := strTrim r.therapistText,
          visitDate := visitDate,
          targetDate := strTrim r.targetText,
          siteBVisitName := (siteBNameAndType taskName).1,
          rowIndex := i,
          needsAction := true,
          actualVisitType := (siteBNameAndType taskName).2 } ::
        collectRows (i + 1) rest

/-- `getAllIncompleteVisits` (lines 153-276) on the row data of the
therapy table. -/
def getAllIncompleteVisits (rows : List RowData) : List Visit :=
  collectRows 0 rows

end SiteA

/-! ## `main.ts`: deduplication and the missing-visit detector -/

namespace Main

/-- `main.ts` line 1113: the dedup key of a Site A visit,
`normalizeVisitKey(v.taskName, v.visitDate || v.targetDate)` (an empty
`visitDate` is falsy and falls back to `targetDate`). -/
def visitDedupKey (v : SiteA.Visit) : String :=
  SiteB.normalizeVisitKey v.taskName
    (if v.visitDate == "" then v.targetDate else v.visitDate)

/-- One `Map.prototype.set` step on an insertion-ordered association
list: an existing key keeps its position and gets the new value, a new
key is appended. -/
def mapSet (keyOf : α → String) (m : List (String × α)) (v : α) :
    List (String × α) :=
  if m.any (fun p => p.1 == keyOf v) then
    m.map (fun p => if p.1 == keyOf v then (keyOf v, v) else p)
  else m ++ [(keyOf v, v)]

/-- `Array.from(new Map(l.map(v => [keyOf v, v])).values())`: build the
insertion-ordered map and list its values. -/
def dedupByKey (keyOf : α → String) (l : List α) : List α :=
  (l.foldl (mapSet keyOf) []).map Prod.snd

/-- `main.ts` lines 1111-1115: deduplicate the collected Site A visits by
normalized visit key. -/
def uniqueVisits (visits : List SiteA.Visit) : List SiteA.Visit :=
  dedupByKey visitDedupKey visits

/-- Specification-side definition (from the spec's words, for the
refinement statement of claim C8): the distinct keys in order of first
occurrence. -/
def firstKeys (seen : List String) : List String → List String
  | [] => []
  | k :: rest =>
    if k ∈ seen then firstKeys seen rest else k :: firstKeys (k :: seen) rest

/-- Specification-side definition: the last record of `l` carrying key
`k` ("last write wins"). -/
def lastWriteFor (keyOf : α → String) (l : List α) (k : String) : Option α :=
  l.reverse.find? (fun v => keyOf v == k)

/-- Specification-side definition (from the spec's words): one record per
distinct key, keys in first-occurrence order, each record the last one
seen for its key. -/
def specDedup (keyOf : α → String) (l : List α) : List α :=
  (firstKeys [] (l.map keyOf)).filterMap (lastWriteFor keyOf l)

/-- `main.ts` lines 1361-1365: the Site A key set (a JS `Set`, used only
for membership, modelled as the key list). -/
def siteAVisitKeys (uniq : List SiteA.Visit) : List String :=
  uniq.map visitDedupKey

/-- The missing-visit loop of `main.ts` (lines 1367-1416).  `resolve`
stands for `resolveScheduleForVisit(pageB, {taskName: bVisit.siteBVisitName,
visitDate: bVisit.visitDate})` against the live Site B view, `insert` for
`addMissingVisitInSiteA`; the returned list records each attempted
insertion and its boolean outcome.  SOC/Discharge task names are skipped
(extra safety guard), keys already present in Site A are skipped, and only
visits resolving exactly to `SCHEDULED` are passed to insertion; a `false`
insertion result is only logged and the loop continues. -/
def processMissingVisits (siteAKeys : List String)
    (resolve : SiteA.Visit → SiteB.ScheduleResult)
    (insert : SiteA.Visit → Bool) :
    List SiteA.Visit → List (SiteA.Visit × Bool)
  | [] => []
  | v :: rest =>
    if SiteA.isSOC v.taskName || SiteA.isDischarge v.taskName then
      processMissingVisits siteAKeys resolve insert rest
    else if siteAKeys.contains (SiteB.normalizeVisitKey v.taskName v.visitDate) then
      processMissingVisits siteAKeys resolve insert rest
    else if !(resolve v == SiteB.ScheduleResult.SCHEDULED) then
      processMissingVisits siteAKeys resolve insert rest
    else
      (v, insert v) :: processMissingVisits siteAKeys resolve insert rest

end Main

/-! ## Claim C1 — schedule status classification precedence -/

/-- Claim C1 counterexample: the claim states that a raw status containing
`"missed"` (and none of the earlier keywords) classifies as a distinct
`MISSED` state.  The source's `ScheduleResult` type has no `MISSED` value
at all, and on the raw status `"missed (completed)"` — which contains
`"missed"` and none of `"scheduled"`, `"incomplete"`, `"view"` — the
classifier returns the fall-through `NOT_FOUND`. -/
theorem claim_C1_counterexample :
    SiteB.classifyStatus (SiteB.normalize "Missed (Completed)") =
      SiteB.ScheduleResult.NOT_FOUND ∧
    strContains (SiteB.normalize "Missed (Completed)") "missed" = true ∧
    strContains (SiteB.normalize "Missed (Completed)") "scheduled" = false ∧
    strContains (SiteB.normalize "Missed (Completed)") "incomplete" = false ∧
    strContains (SiteB.normalize "Missed (Completed)") "view" = false := by
  decide

/-- Claim C1 (amended): the status resolver classifies every raw status
string by fixed substring precedence — contains `"scheduled"` →
`SCHEDULED`; else contains `"incomplete"` → `INCOMPLETE`; else contains
`"view"` → `VIEW_DOCUMENT`; otherwise `NOT_FOUND` (there is no `MISSED`
branch).  In particular the raw text `"Scheduled (view)"` classifies as
`SCHEDULED`, not `VIEW_DOCUMENT`. -/
theorem claim_C1 (raw : String) :
    (strContains raw "scheduled" = true →
      SiteB.classifyStatus raw = SiteB.ScheduleResult.SCHEDULED) ∧
    (strContains raw "scheduled" = false → strContains raw "incomplete" = true →
      SiteB.classifyStatus raw = SiteB.ScheduleResult.INCOMPLETE) ∧
    (strContains raw "scheduled" = false → strContains raw "incomplete" = false →
      strContains raw "view" = true →
      SiteB.classifyStatus raw = SiteB.ScheduleResult.VIEW_DOCUMENT) ∧
    (strContains raw "scheduled" = false → strContains raw "incomplete" = false →
      strContains raw "view" = false →
      SiteB.classifyStatus raw = SiteB.ScheduleResult.NOT_FOUND) ∧
    SiteB.classifyStatus (SiteB.normalize "Scheduled (view)") =
      SiteB.ScheduleResult.SCHEDULED := by
  refine ⟨?_, ?_, ?_, ?_, by decide⟩
  · intro h1; simp [SiteB.classifyStatus, h1]
  · intro h1 h2; simp [SiteB.classifyStatus, h1, h2]
  · intro h1 h2 h3; simp [SiteB.classifyStatus, h1, h2, h3]
  · intro h1 h2 h3; simp [SiteB.classifyStatus, h1, h2, h3]

/-- Claim C1 witness: the amended theorem applied to the normalized raw
text of `"Scheduled (view)"`. -/
theorem claim_C1_witness :
    strContains "scheduled (view)" "scheduled" = true ∧
    SiteB.classifyStatus "scheduled (view)" = SiteB.ScheduleResult.SCHEDULED :=
  ⟨by decide, (claim_C1 "scheduled (view)").1 (by decide)⟩

/-! ## Claim C7 — type/discipline mapping resolution -/

/-- Claim C7 counterexample: the claim states that every label containing
`"cota"` resolves to discipline `"ot"` even when the mapping entry does
not specify one.  The label `"COTA Evaluation"` contains `"cota"`, is not
in the static table, and resolves to the fallback discipline `null` — the
current source has no substring-based role-marker override. -/
theorem claim_C7_counterexample :
    strContains (SiteB.normalize "COTA Evaluation") "cota" = true ∧
    SiteB.getSiteBMapping "COTA Evaluation" = none ∧
    SiteB.expectedDiscFor "COTA Evaluation" = none ∧
    SiteB.expectedTypeFor "COTA Evaluation" = "cota evaluation" := by
  decide

/-- Claim C7 (amended): a known label resolves via the static table (its
table entry supplies both the Site B type and the discipline, so
`"cota visit"` → discipline `ot` and `"pta visit"` → discipline `pt` come
from their table rows, not from a substring override), and an unknown
label falls back to `(normalize label, null)` so a match is still
attempted. -/
theorem claim_C7 (label : String) :
    (SiteB.SITE_A_TO_SITE_B.lookup (SiteB.normalize label) = none →
      SiteB.expectedTypeFor label = SiteB.normalize label ∧
      SiteB.expectedDiscFor label = none) ∧
    (∀ m, SiteB.SITE_A_TO_SITE_B.lookup (SiteB.normalize label) = some m →
      SiteB.expectedTypeFor label = m.siteBType ∧
      SiteB.expectedDiscFor label = m.discipline) ∧
    SiteB.expectedTypeFor "COTA Visit" = "standard" ∧
    SiteB.expectedDiscFor "COTA Visit" = some "ot" ∧
    SiteB.expectedTypeFor "PTA Visit" = "standard" ∧
    SiteB.expectedDiscFor "PTA Visit" = some "pt" := by
  refine ⟨?_, ?_, by decide, by decide, by decide, by decide⟩
  · intro h
    constructor <;>
      simp [SiteB.expectedTypeFor, SiteB.expectedDiscFor, SiteB.getSiteBMapping, h]
  · intro m h
    constructor <;>
      simp [SiteB.expectedTypeFor, SiteB.expectedDiscFor, SiteB.getSiteBMapping, h]

/-- Claim C7 witness: the amended theorem applied to the unknown label
`"Home Health Aide"`. -/
theorem claim_C7_witness :
    SiteB.SITE_A_TO_SITE_B.lookup (SiteB.normalize "Home Health Aide") = none ∧
    SiteB.expectedTypeFor "Home Health Aide" = SiteB.normalize "Home Health Aide" ∧
    SiteB.expectedDiscFor "Home Health Aide" = none :=
  ⟨by decide, ((claim_C7 "Home Health Aide").1 (by decide)).1,
    ((claim_C7 "Home Health Aide").1 (by decide)).2⟩

/-! ## Claim C9 — `convertTo24h` -/

/-- Claim C9: `convertTo24h` parses `H[:MM]` followed (after optional
whitespace) by case-insensitive AM/PM into zero-padded 24-hour `HH:MM`;
every input on which the time pattern matches nowhere yields `"00:00"`
(and the function is total, so it never raises).  In particular `"1PM"` →
`"13:00"`, `"12:00 AM"` → `"00:00"`, `"12:30 PM"` → `"12:30"`. -/
theorem claim_C9 :
    (∀ time : String, SiteB.searchTime time.toList = none →
      SiteB.convertTo24h time = "00:00") ∧
    SiteB.convertTo24h "1PM" = "13:00" ∧
    SiteB.convertTo24h "12:00 AM" = "00:00" ∧
    SiteB.convertTo24h "12:30 PM" = "12:30" := by
  refine ⟨?_, by decide, by decide, by decide⟩
  intro time h
  unfold SiteB.convertTo24h
  rw [h]

/-- Claim C9 witness: the unparseable input `"no time listed"`. -/
theorem claim_C9_witness :
    SiteB.searchTime "no time listed".toList = none ∧
    SiteB.convertTo24h "no time listed" = "00:00" :=
  ⟨by decide, claim_C9.1 "no time listed" (by decide)⟩

/-! ## Claim C4 — therapist fuzzy matcher (code bug) -/

/-- Claim C4 evaluation: the source comment documents the +1 point as
"text after the comma contains the first name", and the claim states the
same, but the code tests `text.includes(firstName)` against the whole
candidate string.  On input `"ANA SANTANA"` the candidate
`"Santana, Bob"` scores 3 — the given name `"ana"` occurs inside the
surname `"santana"` although the post-comma segment `" bob"` does not
contain it — so it ties with `"Santana, Ana Maria"` (also 3) and wins as
first seen, while the documented post-comma rule would score it 2 and
select `"Santana, Ana Maria"`.  The claim's own worked examples do hold
on the code. -/
theorem claim_C4 :
    SiteA.selectTherapist "ANA SANTANA"
      [⟨"Santana, Bob", some "1"⟩, ⟨"Santana, Ana Maria", some "2"⟩] =
      some ("1", "Santana, Bob") ∧
    SiteA.therScore (some "santana".toList) "ana".toList
      "santana, bob".toList = 3 ∧
    containsSub " bob".toList "ana".toList = false ∧
    SiteA.selectTherapist "JESSICA DIAZ (PTA)"
      [⟨"Diaz, Jessica", some "11"⟩, ⟨"Diaz, Juan", some "12"⟩,
       ⟨"Santos, Jessica", some "13"⟩] = some ("11", "Diaz, Jessica") ∧
    SiteA.selectTherapist "JESSICA DIAZ (PTA)"
      [⟨"Rivera, Carlos", some "9"⟩] = none := by
  decide

/-! ## Claims C2, C3 — the visit matcher -/

namespace SiteB

/-- Characterization of the candidate scan: its outcome is decided by the
first card satisfying `matchesTarget` (via `List.find?`), with the
not-found signal when no card matches and the skip signal when the first
matching card has no scheduled time. -/
theorem openLoop_characterization (name date eT : String) (eD : Option String)
    (eDt : String) (ther : Option String) (cards : List VisitCard) :
    (openLoop name date eT eD eDt ther cards).2 =
      match cards.find? (matchesTarget eT eD eDt) with
      | none => .error (.notFoundVisit (notFoundMsg name date))
      | some c =>
        if hasNoSchedTime c then
          .error (.skipNoScheduledTime (skipMsg name date))
        else .ok ⟨c, capturedStatus c⟩ := by
  induction cards with
  | nil => rfl
  | cons c rest ih =>
    cases h : matchesTarget eT eD eDt c with
    | false => simp [openLoop, List.find?, h, ih]
    | true => cases hns : hasNoSchedTime c <;> simp [openLoop, List.find?, h, hns]

end SiteB

/-- Claim C2: the visit matcher scans candidates in list order and selects
the first candidate whose normalized type equals the expected type, whose
normalized date equals the expected date, and — only when the expected
discipline is non-null — whose normalized discipline equals the expected
discipline (first-match policy via `List.find?`, no global scoring); a
supplied therapist hint never changes the outcome (it can only add a
warning). -/
theorem claim_C2 (name date : String) (ther ther' : Option String)
    (cards : List SiteB.VisitCard) :
    ((SiteB.openVisitInSchedule name date ther cards).2 =
      (SiteB.openVisitInSchedule name date ther' cards).2) ∧
    (∀ c : SiteB.VisitCard,
      SiteB.matchesTarget (SiteB.expectedTypeFor name)
          (SiteB.expectedDiscFor name) (SiteB.normalizeDate date) c = true ↔
        ((∃ t, c.typeText = some t ∧
            SiteB.normalize t = SiteB.expectedTypeFor name) ∧
         (∃ d, c.dateText = some d ∧
            SiteB.normalizeDate (strTrim d) = SiteB.normalizeDate date) ∧
         (∀ ed, SiteB.expectedDiscFor name = some ed →
            SiteB.normalize (c.discipline.getD "") = ed))) ∧
    (∀ c, cards.find? (SiteB.matchesTarget (SiteB.expectedTypeFor name)
          (SiteB.expectedDiscFor name) (SiteB.normalizeDate date)) = some c →
      (SiteB.openLoop name date (SiteB.expectedTypeFor name)
          (SiteB.expectedDiscFor name) (SiteB.normalizeDate date) ther cards).2 =
        if SiteB.hasNoSchedTime c then
          Except.error (SiteB.SiteBError.skipNoScheduledTime (SiteB.skipMsg name date))
        else Except.ok ⟨c, SiteB.capturedStatus c⟩) := by
  refine ⟨?_, ?_, ?_⟩
  · unfold SiteB.openVisitInSchedule
    cases hg : (date == "" || strStartsWith (strLower name) "del") with
    | true => simp [hg]
    | false =>
      simp only [hg, Bool.false_eq_true, if_false]
      rw [SiteB.openLoop_characterization, SiteB.openLoop_characterization]
  · intro c
    cases htt : c.typeText with
    | none => simp [SiteB.matchesTarget, htt]
    | some t =>
      cases hdt : c.dateText with
      | none =>
        simp only [SiteB.matchesTarget, htt, hdt]
        by_cases ht : SiteB.normalize t = SiteB.expectedTypeFor name <;>
          simp [ht]
      | some d =>
        simp only [SiteB.matchesTarget, htt, hdt]
        by_cases ht : SiteB.normalize t = SiteB.expectedTypeFor name
        · by_cases hd :
            SiteB.normalizeDate (strTrim d) = SiteB.normalizeDate date
          · cases hdisc : SiteB.expectedDiscFor name with
            | none => simp [ht, hd, hdisc]
            | some ed =>
              by_cases he : SiteB.normalize (c.discipline.getD "") = ed <;>
                simp [ht, hd, hdisc, he]
          · simp [ht, hd]
        · simp [ht]
  · intro c hc
    rw [SiteB.openLoop_characterization, hc]

/-- Claim C2 witness: a PTA Visit target against a one-card schedule whose
card matches on (type, date, discipline); the matcher selects it and the
therapist hint changes nothing. -/
theorem claim_C2_witness :
    List.find? (SiteB.matchesTarget (SiteB.expectedTypeFor "PTA Visit")
        (SiteB.expectedDiscFor "PTA Visit") (SiteB.normalizeDate "2/17/2026"))
        [⟨some "Standard", some "2/17/2026", some "PT", "Jessica Diaz (PTA)",
          some "Scheduled", some "2:30 PM"⟩] =
      some ⟨some "Standard", some "2/17/2026", some "PT", "Jessica Diaz (PTA)",
        some "Scheduled", some "2:30 PM"⟩ ∧
    (SiteB.openLoop "PTA Visit" "2/17/2026" (SiteB.expectedTypeFor "PTA Visit")
        (SiteB.expectedDiscFor "PTA Visit") (SiteB.normalizeDate "2/17/2026")
        (some "J. Diaz (PTA)")
        [⟨some "Standard", some "2/17/2026", some "PT", "Jessica Diaz (PTA)",
          some "Scheduled", some "2:30 PM"⟩]).2 =
      Except.ok ⟨⟨some "Standard", some "2/17/2026", some "PT",
        "Jessica Diaz (PTA)", some "Scheduled", some "2:30 PM"⟩, "scheduled"⟩ :=
  ⟨by decide,
    ((claim_C2 "PTA Visit" "2/17/2026" (some "J. Diaz (PTA)") none
        [⟨some "Standard", some "2/17/2026", some "PT", "Jessica Diaz (PTA)",
          some "Scheduled", some "2:30 PM"⟩]).2.2
      ⟨some "Standard", some "2/17/2026", some "PT", "Jessica Diaz (PTA)",
        some "Scheduled", some "2:30 PM"⟩ (by decide)).trans (by rfl)⟩

/-- Claim C3: if no candidate satisfies the type/date/discipline
predicates the matcher raises the not-found error (`"Visit not found in
Site B: ..."`); if the first satisfying candidate's time slot indicates no
scheduled time the matcher raises the distinct `SKIP:no_scheduled_time`
signal instead of matching; and every failure of the candidate scan is one
of these two signals. -/
theorem claim_C3 (name date : String) (ther : Option String)
    (cards : List SiteB.VisitCard) :
    (cards.find? (SiteB.matchesTarget (SiteB.expectedTypeFor name)
        (SiteB.expectedDiscFor name) (SiteB.normalizeDate date)) = none →
      (SiteB.openLoop name date (SiteB.expectedTypeFor name)
          (SiteB.expectedDiscFor name) (SiteB.normalizeDate date) ther cards).2 =
        Except.error (SiteB.SiteBError.notFoundVisit (SiteB.notFoundMsg name date))) ∧
    (∀ c, cards.find? (SiteB.matchesTarget (SiteB.expectedTypeFor name)
        (SiteB.expectedDiscFor name) (SiteB.normalizeDate date)) = some c →
      SiteB.hasNoSchedTime c = true →
      (SiteB.openLoop name date (SiteB.expectedTypeFor name)
          (SiteB.expectedDiscFor name) (SiteB.normalizeDate date) ther cards).2 =
        Except.error (SiteB.SiteBError.skipNoScheduledTime (SiteB.skipMsg name date))) ∧
    (∀ e, (SiteB.openLoop name date (SiteB.expectedTypeFor name)
          (SiteB.expectedDiscFor name) (SiteB.normalizeDate date) ther cards).2 =
        Except.error e →
      e = SiteB.SiteBError.notFoundVisit (SiteB.notFoundMsg name date) ∨
      e = SiteB.SiteBError.skipNoScheduledTime (SiteB.skipMsg name date)) := by
  refine ⟨?_, ?_, ?_⟩
  · intro h
    rw [SiteB.openLoop_characterization, h]
  · intro c hc hns
    rw [SiteB.openLoop_characterization, hc]
    simp [hns]
  · intro e he
    rw [SiteB.openLoop_characterization] at he
    cases hf : cards.find? (SiteB.matchesTarget (SiteB.expectedTypeFor name)
        (SiteB.expectedDiscFor name) (SiteB.normalizeDate date)) with
    | none =>
      rw [hf] at he
      simp at he
      exact Or.inl he.symm
    | some c =>
      rw [hf] at he
      simp at he
      cases hns : SiteB.hasNoSchedTime c with
      | true =>
        rw [hns] at he
        simp at he
        exact Or.inr he.symm
      | false =>
        rw [hns] at he
        simp at he

/-- Claim C3 witness: an empty candidate list raises the not-found
signal. -/
theorem claim_C3_witness :
    List.find? (SiteB.matchesTarget (SiteB.expectedTypeFor "PT Visit")
        (SiteB.expectedDiscFor "PT Visit") (SiteB.normalizeDate "2/17/2026"))
        ([] : List SiteB.VisitCard) = none ∧
    (SiteB.openLoop "PT Visit" "2/17/2026" (SiteB.expectedTypeFor "PT Visit")
        (SiteB.expectedDiscFor "PT Visit") (SiteB.normalizeDate "2/17/2026")
        none []).2 =
      Except.error (SiteB.SiteBError.notFoundVisit
        (SiteB.notFoundMsg "PT Visit" "2/17/2026")) :=
  ⟨rfl, (claim_C3 "PT Visit" "2/17/2026" none []).1 rfl⟩

/-! ## Claim C5 — the missing-visit detector -/

/-- Claim C5: over a patient's Site B visit list (SOC and Discharge task
names are excluded upstream by `getSiteBVisitsForPatient`), a visit is
passed to insertion if and only if its normalized dedup key is not in the
Site A key set and its resolved schedule status is exactly `SCHEDULED`;
every eligible candidate is attempted regardless of the boolean results of
the earlier insertions (a failed therapist match aborts only its own
insertion). -/
theorem claim_C5 (siteAKeys : List String)
    (resolve : SiteA.Visit → SiteB.ScheduleResult)
    (insert : SiteA.Visit → Bool) (visits : List SiteA.Visit)
    (h : ∀ v ∈ visits, SiteA.isSOC v.taskName = false ∧
      SiteA.isDischarge v.taskName = false) :
    Main.processMissingVisits siteAKeys resolve insert visits =
      (visits.filter (fun v =>
        !siteAKeys.contains (SiteB.normalizeVisitKey v.taskName v.visitDate) &&
        (resolve v == SiteB.ScheduleResult.SCHEDULED))).map
        (fun v => (v, insert v)) := by
  induction visits with
  | nil => rfl
  | cons v rest ih =>
    have hv := h v (List.mem_cons_self v rest)
    have hrest := fun w hw => h w (List.mem_cons_of_mem v hw)
    by_cases hk : SiteB.normalizeVisitKey v.taskName v.visitDate ∈ siteAKeys <;>
      cases hr : resolve v == SiteB.ScheduleResult.SCHEDULED <;>
        simp [Main.processMissingVisits, hv.1, hv.2, hk, hr,
          List.filter_cons, ih hrest]

/-- Claim C5 witness: the worked example — Site A key set
`pt visit|2026-02-17`, three Site B visits with statuses SCHEDULED /
SCHEDULED / INCOMPLETE; exactly the `ot visit|2026-02-18` visit is
attempted (and inserted). -/
theorem claim_C5_witness :
    (∀ v ∈ [(⟨"PT Visit", "A", "2/17/2026", "2/17/2026", "STANDARD", 0, true,
          "Standard"⟩ : SiteA.Visit),
        ⟨"OT Visit", "B", "2/18/2026", "2/18/2026", "STANDARD", 1, true,
          "Standard"⟩,
        ⟨"ST Visit", "C", "2/19/2026", "2/19/2026", "STANDARD", 2, true,
          "Standard"⟩],
      SiteA.isSOC v.taskName = false ∧ SiteA.isDischarge v.taskName = false) ∧
    Main.processMissingVisits ["pt visit|2026-02-17"]
      (fun v => if v.taskName == "PT Visit" || v.taskName == "OT Visit"
        then SiteB.ScheduleResult.SCHEDULED else SiteB.ScheduleResult.INCOMPLETE)
      (fun _ => true)
      [⟨"PT Visit", "A", "2/17/2026", "2/17/2026", "STANDARD", 0, true,
          "Standard"⟩,
       ⟨"OT Visit", "B", "2/18/2026", "2/18/2026", "STANDARD", 1, true,
          "Standard"⟩,
       ⟨"ST Visit", "C", "2/19/2026", "2/19/2026", "STANDARD", 2, true,
          "Standard"⟩] =
      [(⟨"OT Visit", "B", "2/18/2026", "2/18/2026", "STANDARD", 1, true,
          "Standard"⟩, true)] :=
  ⟨by decide,
    (claim_C5 ["pt visit|2026-02-17"]
      (fun v => if v.taskName == "PT Visit" || v.taskName == "OT Visit"
        then SiteB.ScheduleResult.SCHEDULED else SiteB.ScheduleResult.INCOMPLETE)
      (fun _ => true)
      [⟨"PT Visit", "A", "2/17/2026", "2/17/2026", "STANDARD", 0, true,
          "Standard"⟩,
       ⟨"OT Visit", "B", "2/18/2026", "2/18/2026", "STANDARD", 1, true,
          "Standard"⟩,
       ⟨"ST Visit", "C", "2/19/2026", "2/19/2026", "STANDARD", 2, true,
          "Standard"⟩] (by decide)).trans (by decide)⟩

/-! ## Claim C10 — substring-based exclusion predicates -/

/-- A prefix of a prefix: if `a ++ b` is a prefix of `l` then so is `a`. -/
theorem isPrefixOf_append_left (a b l : List Char)
    (h : (a ++ b).isPrefixOf l = true) : a.isPrefixOf l = true := by
  have h' : a ++ b <+: l := by simpa using h
  have ha : a <+: l := (List.prefix_append a b).trans h'
  simpa using ha

/-- Containment weakening: a string containing `a ++ b` also contains
`a`. -/
theorem containsSub_append_left :
    ∀ (l a b : List Char), containsSub l (a ++ b) = true → containsSub l a = true := by
  intro l
  induction l with
  | nil =>
    intro a b h
    simp [containsSub] at h ⊢
    exact h.1
  | cons c t ih =>
    intro a b h
    simp [containsSub] at h ⊢
    cases h with
    | inl h => exact Or.inl ((List.prefix_append a b).trans h)
    | inr h => exact Or.inr (ih a b h)

/-- The four-keyword `isSOC` test collapses to three keywords because
`"SOC OASIS"` contains `"SOC"`. -/
theorem isSOC_characterization (s : String) :
    SiteA.isSOC s = (strContains (strUpper s) "SOC" ||
      strContains (strUpper s) "START OF CARE" ||
      strContains (strUpper s) "OASIS-E1 START") := by
  cases h : strContains (strUpper s) "SOC" with
  | true => simp [SiteA.isSOC, SiteA.SOC_NAMES, h]
  | false =>
    have h2 : strContains (strUpper s) "SOC OASIS" = false := by
      cases h2 : strContains (strUpper s) "SOC OASIS" with
      | false => rfl
      | true =>
        have h3 : containsSub (strUpper s).toList
            ("SOC".toList ++ " OASIS".toList) = true := h2
        have h4 : strContains (strUpper s) "SOC" = true :=
          containsSub_append_left (strUpper s).toList "SOC".toList " OASIS".toList h3
        rw [h] at h4
        simp at h4
    simp [SiteA.isSOC, SiteA.SOC_NAMES, h, h2]

/-- Rows collected by `getAllIncompleteVisits` never carry a blank, SOC,
Discharge, or Del-prefixed task name. -/
theorem collectRows_excluded :
    ∀ (rows : List SiteA.RowData) (i : Nat) (v : SiteA.Visit),
      v ∈ SiteA.collectRows i rows →
      SiteA.isSOC v.taskName = false ∧ SiteA.isDischarge v.taskName = false ∧
        SiteA.isDeleted v.taskName = false := by
  intro rows
  induction rows with
  | nil => intro i v h; simp [SiteA.collectRows] at h
  | cons r rest ih =>
    intro i v h
    simp only [SiteA.collectRows] at h
    split at h
    next => exact ih _ v h
    next hg =>
      split at h
      next => exact ih _ v h
      next =>
        simp only [Bool.or_eq_true, not_or, Bool.not_eq_true] at hg
        rcases List.mem_cons.mp h with rfl | h'
        · exact ⟨hg.1.1.2, hg.1.2, hg.2⟩
        · exact ih _ v h'

/-- Claim C10: the exclusion predicates are substring-based, not
exact-label-based — `isSOC` holds exactly when the upper-cased name
contains `"SOC"`, `"START OF CARE"`, or `"OASIS-E1 START"` as a substring;
`isDischarge` exactly when it contains `"DISCHARGE"`, `"DC OASIS"`,
`"OASIS-E1 DISCHARGE"`, or `"OASIS-E1 DC"`; `isDeleted` exactly when the
trimmed upper-cased name starts with `"DEL "`; consequently every visit
collected by `getAllIncompleteVisits` fails all three predicates (so a
name merely containing those letter sequences is excluded), and
`"Associate"` — which contains `"SOC"` — is classified SOC. -/
theorem claim_C10 (s : String) (rows : List SiteA.RowData) (v : SiteA.Visit) :
    (SiteA.isSOC s = (strContains (strUpper s) "SOC" ||
      strContains (strUpper s) "START OF CARE" ||
      strContains (strUpper s) "OASIS-E1 START")) ∧
    (SiteA.isDischarge s = (strContains (strUpper s) "DISCHARGE" ||
      strContains (strUpper s) "DC OASIS" ||
      strContains (strUpper s) "OASIS-E1 DISCHARGE" ||
      strContains (strUpper s) "OASIS-E1 DC")) ∧
    (SiteA.isDeleted s = strStartsWith (strUpper (strTrim s)) "DEL ") ∧
    (v ∈ SiteA.getAllIncompleteVisits rows →
      SiteA.isSOC v.taskName = false ∧ SiteA.isDischarge v.taskName = false ∧
        SiteA.isDeleted v.taskName = false) ∧
    SiteA.isSOC "Associate" = true := by
  refine ⟨isSOC_characterization s, ?_, rfl, ?_, by decide⟩
  · simp [SiteA.isDischarge, SiteA.DISCHARGE_NAMES, Bool.or_assoc]
  · intro h
    exact collectRows_excluded rows 0 v h

/-- Claim C10 witness: a kept row (task `"PTA Visit"`, no attachment icon)
produces a visit that all three predicates reject. -/
theorem claim_C10_witness :
    ((⟨"PTA Visit", "Jessica Diaz (PTA)", "2/17/2026", "2/17/2026",
        "PTA Visit", 0, true, "Other"⟩ : SiteA.Visit) ∈
      SiteA.getAllIncompleteVisits
        [⟨["PTA Visit"], 0, "2/17/2026", none, "2/17/2026",
          "Jessica Diaz (PTA)"⟩]) ∧
    (SiteA.isSOC "PTA Visit" = false ∧ SiteA.isDischarge "PTA Visit" = false ∧
      SiteA.isDeleted "PTA Visit" = false) :=
  ⟨by decide,
    (claim_C10 "x" [⟨["PTA Visit"], 0, "2/17/2026", none, "2/17/2026",
        "Jessica Diaz (PTA)"⟩]
      ⟨"PTA Visit", "Jessica Diaz (PTA)", "2/17/2026", "2/17/2026",
        "PTA Visit", 0, true, "Other"⟩).2.2.2.1 (by decide)⟩

/-! ## Claim C8 — order-stable keyed last-write-wins deduplication -/

/-- Membership in `firstKeys`: a key is selected iff it occurs in the list
and was not already seen. -/
theorem firstKeys_mem :
    ∀ (l seen : List String) (k : String),
      k ∈ Main.firstKeys seen l ↔ (k ∈ l ∧ k ∉ seen) := by
  intro l
  induction l with
  | nil => intro seen k; simp [Main.firstKeys]
  | cons a l' ih =>
    intro seen k
    by_cases ha : a ∈ seen
    · rw [Main.firstKeys, if_pos ha, ih]
      constructor
      · rintro ⟨hk, hns⟩
        exact ⟨List.mem_cons_of_mem a hk, hns⟩
      · rintro ⟨hk, hns⟩
        rcases List.mem_cons.mp hk with rfl | hk
        · exact absurd ha hns
        · exact ⟨hk, hns⟩
    · rw [Main.firstKeys, if_neg ha]
      constructor
      · intro h
        rcases List.mem_cons.mp h with rfl | h
        · exact ⟨List.mem_cons_self _ _, ha⟩
        · rcases (ih (a :: seen) k).mp h with ⟨hk, hns⟩
          refine ⟨List.mem_cons_of_mem a hk, fun hs => hns (List.mem_cons_of_mem a hs)⟩
      · rintro ⟨hk, hns⟩
        rcases List.mem_cons.mp hk with rfl | hk
        · exact List.mem_cons_self k _
        · by_cases hka : k = a
          · subst hka; exact List.mem_cons_self k _
          · exact List.mem_cons_of_mem a ((ih (a :: seen) k).mpr
              ⟨hk, fun hs => (List.mem_cons.mp hs).elim hka hns⟩)

/-- The selected keys are distinct. -/
theorem firstKeys_nodup :
    ∀ (l seen : List String), (Main.firstKeys seen l).Nodup := by
  intro l
  induction l with
  | nil => intro seen; simp [Main.firstKeys]
  | cons a l' ih =>
    intro seen
    by_cases ha : a ∈ seen
    · rw [Main.firstKeys, if_pos ha]; exact ih seen
    · rw [Main.firstKeys, if_neg ha]
      refine List.nodup_cons.mpr ⟨?_, ih (a :: seen)⟩
      intro hmem
      exact ((firstKeys_mem l' (a :: seen) a).mp hmem).2 (List.mem_cons_self a seen)

/-- Appending one key: it lands at the end exactly when it is new. -/
theorem firstKeys_append_one :
    ∀ (l seen : List String) (k : String),
      Main.firstKeys seen (l ++ [k]) =
        Main.firstKeys seen l ++ (if k ∈ seen ∨ k ∈ l then [] else [k]) := by
  intro l
  induction l with
  | nil =>
    intro seen k
    by_cases h : k ∈ seen <;> simp [Main.firstKeys, h]
  | cons a l' ih =>
    intro seen k
    rw [List.cons_append]
    by_cases ha : a ∈ seen
    · rw [Main.firstKeys, if_pos ha, ih seen k, Main.firstKeys, if_pos ha]
      congr 1
      have hiff : (k ∈ seen ∨ k ∈ l') ↔ (k ∈ seen ∨ k ∈ a :: l') := by
        constructor
        · rintro (h | h)
          · exact Or.inl h
          · exact Or.inr (List.mem_cons_of_mem a h)
        · rintro (h | h)
          · exact Or.inl h
          · rcases List.mem_cons.mp h with rfl | h
            · exact Or.inl ha
            · exact Or.inr h
      simp only [hiff]
    · rw [Main.firstKeys, if_neg ha, ih (a :: seen) k, Main.firstKeys, if_neg ha,
        List.cons_append]
      congr 1
      have hiff : (k ∈ a :: seen ∨ k ∈ l') ↔ (k ∈ seen ∨ k ∈ a :: l') := by
        constructor
        · rintro (h | h)
          · rcases List.mem_cons.mp h with rfl | h
            · exact Or.inr (List.mem_cons_self k l')
            · exact Or.inl h
          · exact Or.inr (List.mem_cons_of_mem a h)
        · rintro (h | h)
          · exact Or.inl (List.mem_cons_of_mem a h)
          · rcases List.mem_cons.mp h with rfl | h
            · exact Or.inl (List.mem_cons_self k seen)
            · exact Or.inr h
      simp only [hiff]

/-- Last-write lookup after appending one record. -/
theorem lastWriteFor_append_one {α : Type} (keyOf : α → String)
    (p : List α) (v : α) (k : String) :
    Main.lastWriteFor keyOf (p ++ [v]) k =
      if keyOf v == k then some v else Main.lastWriteFor keyOf p k := by
  unfold Main.lastWriteFor
  rw [List.reverse_append]
  cases h : keyOf v == k <;> simp [List.find?, h]

/-- `Map.set` on a present key: in-place value update. -/
theorem mapSet_present {α : Type} (keyOf : α → String) (m : List (String × α))
    (v : α) (h : keyOf v ∈ m.map Prod.fst) :
    Main.mapSet keyOf m v =
      m.map (fun pr => if pr.1 = keyOf v then (keyOf v, v) else pr) := by
  unfold Main.mapSet
  have hany : m.any (fun p => p.1 == keyOf v) = true := by
    rw [List.any_eq_true]
    rcases List.mem_map.mp h with ⟨pr, hpr, he⟩
    exact ⟨pr, hpr, beq_iff_eq.mpr he⟩
  rw [if_pos hany]
  apply List.map_congr_left
  intro pr _
  by_cases hb : pr.1 = keyOf v <;> simp [hb]

/-- `Map.set` on a fresh key: append. -/
theorem mapSet_fresh {α : Type} (keyOf : α → String) (m : List (String × α))
    (v : α) (h : keyOf v ∉ m.map Prod.fst) :
    Main.mapSet keyOf m v = m ++ [(keyOf v, v)] := by
  unfold Main.mapSet
  have hany : ¬(m.any (fun p => p.1 == keyOf v) = true) := by
    rw [List.any_eq_true]
    rintro ⟨pr, hpr, hb⟩
    exact h (List.mem_map.mpr ⟨pr, hpr, beq_iff_eq.mp hb⟩)
  rw [if_neg hany]

/-- One fold step preserves the association-list invariant: the stored
keys are the first-occurrence keys of the processed input, every entry's
key is its value's key, and every entry holds the last write for its
key. -/
theorem mapSet_invariant {α : Type} (keyOf : α → String) (processed : List α)
    (m : List (String × α)) (v : α)
    (hkeys : m.map Prod.fst = Main.firstKeys [] (processed.map keyOf))
    (hkv : ∀ pr ∈ m, pr.1 = keyOf pr.2)
    (hlast : ∀ pr ∈ m, Main.lastWriteFor keyOf processed pr.1 = some pr.2) :
    ((Main.mapSet keyOf m v).map Prod.fst =
        Main.firstKeys [] ((processed ++ [v]).map keyOf)) ∧
    (∀ pr ∈ Main.mapSet keyOf m v, pr.1 = keyOf pr.2) ∧
    (∀ pr ∈ Main.mapSet keyOf m v,
      Main.lastWriteFor keyOf (processed ++ [v]) pr.1 = some pr.2) := by
  have hmapapp : (processed ++ [v]).map keyOf = processed.map keyOf ++ [keyOf v] := by
    simp
  by_cases hmem : keyOf v ∈ processed.map keyOf
  · have hmemm : keyOf v ∈ m.map Prod.fst := by
      rw [hkeys, firstKeys_mem]
      exact ⟨hmem, by simp⟩
    rw [mapSet_present keyOf m v hmemm]
    refine ⟨?_, ?_, ?_⟩
    · rw [hmapapp, firstKeys_append_one, if_pos (Or.inr hmem), List.append_nil,
        ← hkeys, List.map_map]
      apply List.map_congr_left
      intro pr _
      by_cases hb : pr.1 = keyOf v <;> simp [hb]
    · intro pr hpr
      rcases List.mem_map.mp hpr with ⟨pr0, hpr0, rfl⟩
      by_cases hb : pr0.1 = keyOf v <;> simp [hb]
      exact hkv pr0 hpr0
    · intro pr hpr
      rcases List.mem_map.mp hpr with ⟨pr0, hpr0, rfl⟩
      rw [lastWriteFor_append_one]
      by_cases hb : pr0.1 = keyOf v
      · simp [hb]
      · rw [if_neg hb]
        have hbb : ¬(keyOf v == pr0.1) = true := fun hbeq =>
          hb (beq_iff_eq.mp hbeq).symm
        rw [if_neg hbb]
        exact hlast pr0 hpr0
  · have hmemm : keyOf v ∉ m.map Prod.fst := by
      rw [hkeys, firstKeys_mem]
      rintro ⟨hk, _⟩
      exact hmem hk
    rw [mapSet_fresh keyOf m v hmemm]
    refine ⟨?_, ?_, ?_⟩
    · rw [hmapapp, firstKeys_append_one, List.map_append, hkeys]
      have : ¬(keyOf v ∈ ([] : List String) ∨ keyOf v ∈ processed.map keyOf) := by
        rintro (h | h)
        · simp at h
        · exact hmem h
      rw [if_neg this]
      rfl
    · intro pr hpr
      rcases List.mem_append.mp hpr with hpr | hpr
      · exact hkv pr hpr
      · simp at hpr
        rw [hpr]
    · intro pr hpr
      rw [lastWriteFor_append_one]
      rcases List.mem_append.mp hpr with hpr | hpr
      · have hb : ¬(keyOf v == pr.1) = true := by
          intro hbeq
          apply hmem
          have : keyOf v = pr.1 := beq_iff_eq.mp hbeq
          have h2 : pr.1 ∈ m.map Prod.fst := List.mem_map.mpr ⟨pr, hpr, rfl⟩
          rw [hkeys, firstKeys_mem] at h2
          rw [this]
          exact h2.1
        rw [if_neg hb]
        exact hlast pr hpr
      · simp at hpr
        rw [hpr]
        simp

/-- The whole fold establishes the association-list invariant. -/
theorem foldl_mapSet_invariant {α : Type} (keyOf : α → String) :
    ∀ (l processed : List α) (m : List (String × α)),
      m.map Prod.fst = Main.firstKeys [] (processed.map keyOf) →
      (∀ pr ∈ m, pr.1 = keyOf pr.2) →
      (∀ pr ∈ m, Main.lastWriteFor keyOf processed pr.1 = some pr.2) →
      ((l.foldl (Main.mapSet keyOf) m).map Prod.fst =
          Main.firstKeys [] ((processed ++ l).map keyOf)) ∧
      (∀ pr ∈ l.foldl (Main.mapSet keyOf) m, pr.1 = keyOf pr.2) ∧
      (∀ pr ∈ l.foldl (Main.mapSet keyOf) m,
        Main.lastWriteFor keyOf (processed ++ l) pr.1 = some pr.2) := by
  intro l
  induction l with
  | nil =>
    intro processed m h1 h2 h3
    rw [List.foldl_nil, List.append_nil]
    exact ⟨h1, h2, h3⟩
  | cons v l' ih =>
    intro processed m h1 h2 h3
    have step := mapSet_invariant keyOf processed m v h1 h2 h3
    have hrec := ih (processed ++ [v]) (Main.mapSet keyOf m v)
      step.1 step.2.1 step.2.2
    rw [List.append_assoc, List.singleton_append] at hrec
    exact hrec

/-- Listing values equals filtering the last writes over the stored
keys. -/
theorem map_snd_eq_filterMap {α : Type} (lw : String → Option α) :
    ∀ (m : List (String × α)), (∀ pr ∈ m, lw pr.1 = some pr.2) →
      m.map Prod.snd = (m.map Prod.fst).filterMap lw := by
  intro m
  induction m with
  | nil => intro _; rfl
  | cons pr rest ih =>
    intro h
    have h0 := h pr (List.mem_cons_self _ _)
    simp [List.filterMap_cons, h0,
      ih (fun q hq => h q (List.mem_cons_of_mem _ hq))]

/-- Claim C8: deduplication by normalized visit key is an order-stable
keyed last-write-wins map — the output equals the specification-side
`specDedup` (one record per distinct key, keys in first-occurrence
order, each kept record the last one seen for its key); its key list is
the duplicate-free first-occurrence key list of the input, and every kept
record is its key's last write. -/
theorem claim_C8 (visits : List SiteA.Visit) :
    Main.uniqueVisits visits = Main.specDedup Main.visitDedupKey visits ∧
    ((Main.uniqueVisits visits).map Main.visitDedupKey =
      Main.firstKeys [] (visits.map Main.visitDedupKey)) ∧
    ((Main.uniqueVisits visits).map Main.visitDedupKey).Nodup ∧
    (∀ v ∈ Main.uniqueVisits visits,
      Main.lastWriteFor Main.visitDedupKey visits (Main.visitDedupKey v) =
        some v) ∧
    (∀ k, k ∈ (Main.uniqueVisits visits).map Main.visitDedupKey ↔
      k ∈ visits.map Main.visitDedupKey) := by
  have hinv := foldl_mapSet_invariant Main.visitDedupKey visits [] [] rfl
    (by intro pr h; simp at h) (by intro pr h; simp at h)
  rw [List.nil_append] at hinv
  obtain ⟨hkeys, hkv, hlast⟩ := hinv
  have hunique : Main.uniqueVisits visits =
      (visits.foldl (Main.mapSet Main.visitDedupKey) []).map Prod.snd := rfl
  have hmapkeys : (Main.uniqueVisits visits).map Main.visitDedupKey =
      Main.firstKeys [] (visits.map Main.visitDedupKey) := by
    rw [hunique, List.map_map, ← hkeys]
    apply List.map_congr_left
    intro pr hpr
    exact (hkv pr hpr).symm
  refine ⟨?_, hmapkeys, ?_, ?_, ?_⟩
  · rw [hunique, map_snd_eq_filterMap (Main.lastWriteFor Main.visitDedupKey visits)
      _ hlast, hkeys]
    rfl
  · rw [hmapkeys]
    exact firstKeys_nodup _ _
  · intro v hv
    rw [hunique] at hv
    rcases List.mem_map.mp hv with ⟨pr, hpr, rfl⟩
    rw [← hkv pr hpr]
    exact hlast pr hpr
  · intro k
    rw [hmapkeys, firstKeys_mem]
    simp

/-! ## Claim C6 — `normalizeVisitKey` invariance

The key lemma characterizes `normalize` as the lower-cased `\s`-separated
words joined by single spaces; invariance under case changes and
whitespace variance (non-breaking spaces included) follows. -/

/-- `dropWhile` never lengthens a list. -/
theorem length_dropWhile_le (p : Char → Bool) :
    ∀ l : List Char, (l.dropWhile p).length ≤ l.length := by
  intro l
  induction l with
  | nil => simp [List.dropWhile]
  | cons c rest ih =>
    cases h : p c with
    | true =>
      simp only [List.dropWhile, h]
      exact Nat.le_succ_of_le ih
    | false => simp [List.dropWhile, h]

/-- The fuel is irrelevant once it covers the list length. -/
theorem wordsOfFuel_irrel :
    ∀ (f1 : Nat) (l : List Char) (f2 : Nat), l.length ≤ f1 → l.length ≤ f2 →
      wordsOfFuel f1 l = wordsOfFuel f2 l := by
  intro f1
  induction f1 with
  | zero =>
    intro l f2 h1 _
    have hl : l = [] := List.eq_nil_of_length_eq_zero (Nat.le_zero.mp h1)
    subst hl
    cases f2 <;> rfl
  | succ f ih =>
    intro l f2 h1 h2
    cases l with
    | nil => cases f2 <;> rfl
    | cons c rest =>
      cases f2 with
      | zero => simp at h2
      | succ f2m =>
        have hr1 : rest.length ≤ f := by simp at h1; omega
        have hr2 : rest.length ≤ f2m := by simp at h2; omega
        by_cases hc : jsWs c
        · simp [wordsOfFuel, hc, ih rest f2m hr1 hr2]
        · have hd1 : (rest.dropWhile (fun x => !jsWs x)).length ≤ f :=
            le_trans (length_dropWhile_le _ rest) hr1
          have hd2 : (rest.dropWhile (fun x => !jsWs x)).length ≤ f2m :=
            le_trans (length_dropWhile_le _ rest) hr2
          simp [wordsOfFuel, hc, ih _ f2m hd1 hd2]

/-- `wordsOf` ignores a leading whitespace character. -/
theorem wordsOf_cons_ws (c : Char) (rest : List Char) (h : jsWs c = true) :
    wordsOf (c :: rest) = wordsOf rest := by
  unfold wordsOf
  simp [List.length_cons, wordsOfFuel, h]

/-- `wordsOf` on a word character: the maximal word is taken and scanning
resumes after it. -/
theorem wordsOf_cons_nonws (rest : List Char) (c : Char) (h : jsWs c = false) :
    wordsOf (c :: rest) =
      (c :: rest.takeWhile (fun x => !jsWs x)) ::
        wordsOf (rest.dropWhile (fun x => !jsWs x)) := by
  unfold wordsOf
  simp only [List.length_cons, wordsOfFuel, h, Bool.false_eq_true, if_false]
  exact congrArg _ (wordsOfFuel_irrel rest.length _ _
    (length_dropWhile_le _ rest) (Nat.le_refl _))

/-- The first selected word starts with a non-whitespace character. -/
theorem wordsOf_head :
    ∀ (l w : List Char) (ws : List (List Char)), wordsOf l = w :: ws →
      ∃ c cs, w = c :: cs ∧ jsWs c = false := by
  intro l
  induction l with
  | nil => intro w ws h; simp [wordsOf, wordsOfFuel] at h
  | cons c rest ih =>
    intro w ws' h
    cases hc : jsWs c with
    | true =>
      rw [wordsOf_cons_ws c rest hc] at h
      exact ih w ws' h
    | false =>
      rw [wordsOf_cons_nonws rest c hc] at h
      injection h with h1 _
      exact ⟨c, rest.takeWhile (fun x => !jsWs x), h1.symm, hc⟩

/-- `dropWhile` across an appended final element. -/
theorem dropWhile_append_one (p : Char → Bool) (a : List Char) (c : Char) :
    (a ++ [c]).dropWhile p =
      if a.dropWhile p = [] then (if p c then [] else [c])
      else a.dropWhile p ++ [c] := by
  induction a with
  | nil => cases hc : p c <;> simp [List.dropWhile, hc]
  | cons x a' ih =>
    cases hx : p x with
    | true => simpa [List.dropWhile, hx] using ih
    | false => simp [List.dropWhile, hx]

/-- Right trim of a cons. -/
theorem rtrim_cons (c : Char) (l : List Char) :
    rtrim (c :: l) =
      if rtrim l = [] then (if jsWs c then [] else [c]) else c :: rtrim l := by
  by_cases hA : rtrim l = []
  · have hA' : l.reverse.dropWhile jsWs = [] := by
      have h2 := congrArg List.reverse hA
      simpa [rtrim] using h2
    rw [if_pos hA]
    unfold rtrim
    rw [List.reverse_cons, dropWhile_append_one, if_pos hA']
    by_cases hc : jsWs c <;> simp [hc]
  · have hA' : ¬(l.reverse.dropWhile jsWs = []) := by
      intro hcon
      apply hA
      simp [rtrim, hcon]
    rw [if_neg hA]
    unfold rtrim
    rw [List.reverse_cons, dropWhile_append_one, if_neg hA']
    simp

/-- Right trim of a cons with a non-whitespace head. -/
theorem rtrim_cons_nonws (c : Char) (l : List Char) (h : jsWs c = false) :
    rtrim (c :: l) = c :: rtrim l := by
  rw [rtrim_cons]
  by_cases hr : rtrim l = []
  · rw [if_pos hr, if_neg (by simp [h]), hr]
  · rw [if_neg hr]

/-- Space is ECMAScript whitespace. -/
theorem jsWs_space : jsWs ' ' = true := by decide

/-- The skipping-state collapse output never starts with whitespace. -/
theorem collapse_true_head :
    ∀ l : List Char, collapseWsAux true l = [] ∨
      ∃ c cs, collapseWsAux true l = c :: cs ∧ jsWs c = false := by
  intro l
  induction l with
  | nil => left; rfl
  | cons c rest ih =>
    cases hc : jsWs c with
    | true => simpa [collapseWsAux, hc] using ih
    | false =>
      right
      exact ⟨c, collapseWsAux false rest, by simp [collapseWsAux, hc], hc⟩

/-- Left trim is the identity on skipping-state collapse output. -/
theorem ltrim_collapse_true (l : List Char) :
    ltrim (collapseWsAux true l) = collapseWsAux true l := by
  rcases collapse_true_head l with h | ⟨c, cs, h, hc⟩
  · rw [h]; rfl
  · rw [h]; simp [ltrim, List.dropWhile, hc]

/-- Left trim turns the collapse of the initial state into the collapse of
the skipping state. -/
theorem ltrim_collapse_false (l : List Char) :
    ltrim (collapseWsAux false l) = collapseWsAux true l := by
  cases l with
  | nil => rfl
  | cons c rest =>
    cases hc : jsWs c with
    | true =>
      have h1 : collapseWsAux false (c :: rest) = ' ' :: collapseWsAux true rest := by
        simp [collapseWsAux, hc]
      have h2 : collapseWsAux true (c :: rest) = collapseWsAux true rest := by
        simp [collapseWsAux, hc]
      rw [h1, h2]
      show List.dropWhile jsWs (' ' :: collapseWsAux true rest) = collapseWsAux true rest
      rw [List.dropWhile_cons_of_pos (by rw [jsWs_space])]
      exact ltrim_collapse_true rest
    | false =>
      have h1 : collapseWsAux false (c :: rest) = c :: collapseWsAux false rest := by
        simp [collapseWsAux, hc]
      have h2 : collapseWsAux true (c :: rest) = c :: collapseWsAux false rest := by
        simp [collapseWsAux, hc]
      rw [h1, h2]
      show List.dropWhile jsWs (c :: collapseWsAux false rest) = _
      rw [List.dropWhile_cons_of_neg (by rw [hc]; exact Bool.false_ne_true)]

/-- The mid-word continuation of a word join. -/
def restJoin (l : List Char) : List Char :=
  l.takeWhile (fun x => !jsWs x) ++
    joinWordsTail (wordsOf (l.dropWhile (fun x => !jsWs x)))

/-- The central characterization: right-trimmed collapse output is the
single-space join of the `\s`-separated words (skipping state), resp. its
mid-word continuation (emitting state). -/
theorem rtrim_collapse :
    ∀ l : List Char,
      rtrim (collapseWsAux true l) = joinWords (wordsOf l) ∧
      rtrim (collapseWsAux false l) = restJoin l := by
  intro l
  induction l with
  | nil => exact ⟨rfl, rfl⟩
  | cons c rest ih =>
    obtain ⟨ihS, ihT⟩ := ih
    constructor
    · cases hc : jsWs c with
      | true =>
        rw [show collapseWsAux true (c :: rest) = collapseWsAux true rest from
            by simp [collapseWsAux, hc],
          wordsOf_cons_ws c rest hc]
        exact ihS
      | false =>
        rw [show collapseWsAux true (c :: rest) = c :: collapseWsAux false rest from
            by simp [collapseWsAux, hc],
          rtrim_cons_nonws c _ hc, ihT, wordsOf_cons_nonws rest c hc]
        simp [joinWords, restJoin]
    · cases hc : jsWs c with
      | true =>
        rw [show collapseWsAux false (c :: rest) = ' ' :: collapseWsAux true rest from
            by simp [collapseWsAux, hc],
          rtrim_cons, ihS]
        have hRest : restJoin (c :: rest) = joinWordsTail (wordsOf rest) := by
          unfold restJoin
          rw [List.takeWhile_cons_of_neg (by simp [hc]),
            List.dropWhile_cons_of_neg (by simp [hc]),
            wordsOf_cons_ws c rest hc]
          rfl
        rw [hRest]
        cases hw : wordsOf rest with
        | nil => simp [joinWords, joinWordsTail, jsWs_space]
        | cons w ws =>
          obtain ⟨d, ds, hwd, _⟩ := wordsOf_head rest w ws hw
          have hne : ¬(joinWords (w :: ws) = []) := by
            subst hwd
            simp [joinWords]
          rw [if_neg hne]
          simp [joinWords, joinWordsTail]
      | false =>
        rw [show collapseWsAux false (c :: rest) = c :: collapseWsAux false rest from
            by simp [collapseWsAux, hc],
          rtrim_cons_nonws c _ hc, ihT]
        unfold restJoin
        rw [List.takeWhile_cons_of_pos (by simp [hc]),
          List.dropWhile_cons_of_pos (by simp [hc])]
        rfl

/-- A non-whitespace character is not the non-breaking space. -/
theorem toNat_ne_nbsp {c : Char} (h : jsWs c = false) : ¬(c.toNat = 160) := by
  intro h160
  unfold jsWs at h
  rw [h160] at h
  exact absurd h (by decide)

/-- Collapse output contains no non-breaking space, so the NBSP
replacement is the identity on it. -/
theorem replaceNbsp_collapse :
    ∀ (l : List Char) (b : Bool), replaceNbsp (collapseWsAux b l) = collapseWsAux b l := by
  intro l
  induction l with
  | nil => intro b; rfl
  | cons c rest ih =>
    intro b
    cases hc : jsWs c with
    | true =>
      cases b with
      | true =>
        rw [show collapseWsAux true (c :: rest) = collapseWsAux true rest from
          by simp [collapseWsAux, hc]]
        exact ih true
      | false =>
        rw [show collapseWsAux false (c :: rest) = ' ' :: collapseWsAux true rest from
          by simp [collapseWsAux, hc]]
        show (if (' ' : Char).toNat = 160 then ' ' else ' ') ::
            replaceNbsp (collapseWsAux true rest) = _
        rw [if_neg (by decide), ih true]
    | false =>
      have h160 := toNat_ne_nbsp hc
      have hstep : ∀ b2 : Bool, collapseWsAux b2 (c :: rest) = c :: collapseWsAux false rest := by
        intro b2
        cases b2 <;> simp [collapseWsAux, hc]
      rw [hstep b]
      show (if c.toNat = 160 then ' ' else c) :: replaceNbsp (collapseWsAux false rest) =
        c :: collapseWsAux false rest
      rw [if_neg h160, ih false]

/-- Lower-casing fixes the space character. -/
theorem toLower_space : Char.toLower ' ' = ' ' := by decide

/-- Lower-casing distributes over the word-join tail. -/
theorem jsLower_joinWordsTail :
    ∀ ws : List (List Char),
      jsLower (joinWordsTail ws) = joinWordsTail (ws.map jsLower) := by
  intro ws
  induction ws with
  | nil => rfl
  | cons w rest ih =>
    show jsLower (' ' :: (w ++ joinWordsTail rest)) =
      ' ' :: (jsLower w ++ joinWordsTail (rest.map jsLower))
    rw [← ih]
    simp [jsLower, toLower_space]

/-- Lower-casing distributes over the word join. -/
theorem jsLower_joinWords (ws : List (List Char)) :
    jsLower (joinWords ws) = joinWords (ws.map jsLower) := by
  cases ws with
  | nil => rfl
  | cons w rest =>
    show jsLower (w ++ joinWordsTail rest) =
      jsLower w ++ joinWordsTail (rest.map jsLower)
    rw [← jsLower_joinWordsTail]
    simp [jsLower]

/-- Characterization of Site B `normalize`: the lower-cased
`\s`-separated words joined by single spaces. -/
theorem normalize_words (s : String) :
    SiteB.normalize s = (joinWords ((wordsOf s.toList).map jsLower)).asString := by
  unfold SiteB.normalize
  rw [show collapseWs s.toList = collapseWsAux false s.toList from rfl,
    replaceNbsp_collapse s.toList false]
  unfold jsTrim
  rw [ltrim_collapse_false, (rtrim_collapse s.toList).1, jsLower_joinWords]

/-- Claim C6: `normalizeVisitKey` is invariant under case changes and
internal-whitespace variance (non-breaking spaces included) in the task
name — captured by equality of the lower-cased `\s`-word lists — and
under zero-padding differences in a slash-date — captured by
`Number`-equality of the three components. -/
theorem claim_C6 (t1 t2 d1 d2 : String)
    (ht : (wordsOf t1.toList).map jsLower = (wordsOf t2.toList).map jsLower)
    (hd : ∃ m1 dd1 y1 m2 dd2 y2,
      splitChar '/' d1.toList = [m1, dd1, y1] ∧
      splitChar '/' d2.toList = [m2, dd2, y2] ∧
      jsNumber m1 = jsNumber m2 ∧ jsNumber dd1 = jsNumber dd2 ∧
      jsNumber y1 = jsNumber y2) :
    SiteB.normalizeVisitKey t1 d1 = SiteB.normalizeVisitKey t2 d2 := by
  have h1 : SiteB.normalize t1 = SiteB.normalize t2 := by
    rw [normalize_words, normalize_words, ht]
  have h2 : SiteB.normalizeDateToISO d1 = SiteB.normalizeDateToISO d2 := by
    obtain ⟨m1, dd1, y1, m2, dd2, y2, e1, e2, hm, hdd, hy⟩ := hd
    unfold SiteB.normalizeDateToISO
    rw [e1, e2]
    simp only [hm, hdd, hy]
  unfold SiteB.normalizeVisitKey
  rw [h1, h2]

/-- Claim C6 witness: a task name with a non-breaking space, doubled
spacing and different casing, and the date pair `2/3/2026` /
`02/03/2026`, produce the same key. -/
theorem claim_C6_witness :
    SiteB.normalizeVisitKey "PTA  Visit" "2/3/2026" =
      SiteB.normalizeVisitKey "pta visit" "02/03/2026" :=
  claim_C6 "PTA  Visit" "pta visit" "2/3/2026" "02/03/2026" (by decide)
    ⟨"2".toList, "3".toList, "2026".toList, "02".toList, "03".toList,
      "2026".toList, by decide, by decide, by decide, by decide, by decide⟩

example : SiteB.normalizeVisitKey "PTA  Visit" "2/3/2026" = "pta visit|2026-02-03" := by
  decide

/-- Claim C8 witness: two records sharing the key `pta visit|2026-02-17`
collapse to the later record, kept at the first key's position. -/
theorem claim_C8_witness :
    ((⟨"PTA Visit", "B", "2/17/2026", "2/17/2026", "Visit", 1, true,
        "Other"⟩ : SiteA.Visit) ∈
      Main.uniqueVisits
        [⟨"PTA Visit", "A", "2/17/2026", "2/17/2026", "Visit", 0, true, "Other"⟩,
         ⟨"PTA Visit", "B", "2/17/2026", "2/17/2026", "Visit", 1, true, "Other"⟩]) ∧
    Main.lastWriteFor Main.visitDedupKey
        [⟨"PTA Visit", "A", "2/17/2026", "2/17/2026", "Visit", 0, true, "Other"⟩,
         ⟨"PTA Visit", "B", "2/17/2026", "2/17/2026", "Visit", 1, true, "Other"⟩]
        (Main.visitDedupKey
          ⟨"PTA Visit", "B", "2/17/2026", "2/17/2026", "Visit", 1, true, "Other"⟩) =
      some ⟨"PTA Visit", "B", "2/17/2026", "2/17/2026", "Visit", 1, true, "Other"⟩ :=
  ⟨by decide,
    (claim_C8
      [⟨"PTA Visit", "A", "2/17/2026", "2/17/2026", "Visit", 0, true, "Other"⟩,
       ⟨"PTA Visit", "B", "2/17/2026", "2/17/2026", "Visit", 1, true, "Other"⟩]).2.2.2.1
      ⟨"PTA Visit", "B", "2/17/2026", "2/17/2026", "Visit", 1, true, "Other"⟩
      (by decide)⟩
